import Mathlib

/-!
Verification development for the data-forge lazy dataframe library.

Cell values of series and data frames are modelled by the type JSVal, with
the JavaScript value undefined rendered as JSVal.undef. A data-frame row is
a List JSVal; a column-mapped row object is a List (String x JSVal) in
column order. Iterators that the source drives statefully (ArrayIterator,
the generated range cursor) are modelled as explicit state machines whose
moveNext returns the boolean result together with the successor state.
Fallible constructors and operations are modelled with Except String.
-/

set_option maxHeartbeats 1000000

namespace DataForge

/-- Model of an atomic JavaScript value as stored in series and data-frame
cells: undefined, a number (integral here), or a string. -/
inductive JSVal where
  | undef : JSVal
  | num (n : Int) : JSVal
  | str (s : String) : JSVal
deriving DecidableEq, Repr

/-- Helper: whether an Except-valued computation succeeded; models a
JavaScript call that did not throw. -/
def exceptOk {α : Type} : Except String α → Bool
  | .ok _ => true
  | .error _ => false

theorem exceptOk_ok {α : Type} (x : α) : exceptOk (.ok x) = true := rfl

theorem exceptOk_error {α : Type} (e : String) :
    exceptOk (α := α) (.error e) = false := rfl

/-- State of an ArrayIterator (src/iterators/array): the backing array, the
optional parallel position array, and the mutable rowIndex that starts
at -1. -/
structure ArrayIter where
  arr : List JSVal
  posIndex : Option (List JSVal)
  rowIndex : Int
deriving DecidableEq, Repr

/-- The ArrayIterator constructor: when a parallel position array is
supplied it asserts that both arrays have the same length, throwing
otherwise; on success rowIndex starts at -1. -/
def arrayIterNew (arr : List JSVal) (index : Option (List JSVal)) :
    Except String ArrayIter :=
  match index with
  | some ix =>
    if arr.length = ix.length then .ok ⟨arr, some ix, -1⟩
    else .error "Expect value array and index array to be the same length."
  | none => .ok ⟨arr, none, -1⟩

/-- A fresh ArrayIterator over an array with no parallel position array. -/
def arrayIterFresh (arr : List JSVal) : ArrayIter := ⟨arr, none, -1⟩

/-- ArrayIterator.moveNext: pre-increments rowIndex and reports whether the
new rowIndex is still inside the array. -/
def arrayIterMoveNext (s : ArrayIter) : Bool × ArrayIter :=
  let r := s.rowIndex + 1
  (decide (r < (s.arr.length : Int)), { s with rowIndex := r })

/-- ArrayIterator.getCurrent: the element at rowIndex while rowIndex is in
range, undefined otherwise. -/
def arrayIterGetCurrent (s : ArrayIter) : JSVal :=
  if 0 ≤ s.rowIndex ∧ s.rowIndex < (s.arr.length : Int) then
    s.arr.getD s.rowIndex.toNat JSVal.undef
  else JSVal.undef

/-- ArrayIterator.getCurrentIndex: while rowIndex is in range, the parallel
position array entry when one was supplied and rowIndex itself otherwise;
undefined outside the valid window. -/
def arrayIterGetCurrentIndex (s : ArrayIter) : JSVal :=
  if 0 ≤ s.rowIndex ∧ s.rowIndex < (s.arr.length : Int) then
    match s.posIndex with
    | some ix => ix.getD s.rowIndex.toNat JSVal.undef
    | none => JSVal.num s.rowIndex
  else JSVal.undef

/-- Apply moveNext to an iterator state n times, keeping only the state. -/
def arrayIterAdvance (s : ArrayIter) : Nat → ArrayIter
  | 0 => s
  | n + 1 => arrayIterAdvance (arrayIterMoveNext s).2 n

/-- Fuel-indexed loop body of ArrayIterator.realize: drain the iterator via
moveNext and getCurrent into an array. The while loop in the source always
terminates because rowIndex strictly increases; the fuel supplied by
arrayIterRealize suffices for every state reachable from a construction. -/
def arrayIterRealizeGo : Nat → ArrayIter → List JSVal
  | 0, _ => []
  | fuel + 1, s =>
    let step := arrayIterMoveNext s
    if step.1 then arrayIterGetCurrent step.2 :: arrayIterRealizeGo fuel step.2
    else []

/-- ArrayIterator.realize: drains the iterator from its current position to
completion into a freshly allocated array. -/
def arrayIterRealize (s : ArrayIter) : List JSVal :=
  arrayIterRealizeGo (s.arr.length + 1) s

/-- State of the generated-sequence cursor built inline by dataForge.range:
the closure captures start and count and a counter i starting at -1. -/
structure RangeIter where
  start : Int
  count : Int
  i : Int
deriving Repr

/-- The cursor produced by the values producer of dataForge.range. -/
def rangeIterNew (start count : Int) : RangeIter := ⟨start, count, -1⟩

/-- moveNext of the range cursor: pre-increments i and reports i < count. -/
def rangeMoveNext (s : RangeIter) : Bool × RangeIter :=
  let i := s.i + 1
  (decide (i < s.count), { s with i := i })

/-- getCurrent of the range cursor: returns start + i unconditionally; no
branch of the source ever returns undefined, and the cursor object defines
no getCurrentIndex member at all. -/
def rangeGetCurrent (s : RangeIter) : JSVal := JSVal.num (s.start + s.i)

section ArrayIterLemmas

theorem arrayIterAdvance_fresh (arr : List JSVal) (ix : Option (List JSVal))
    (r : Int) (n : Nat) :
    arrayIterAdvance ⟨arr, ix, r⟩ n = ⟨arr, ix, r + n⟩ := by
  induction n generalizing r with
  | zero => simp [arrayIterAdvance]
  | succ n ih =>
    simp only [arrayIterAdvance, arrayIterMoveNext]
    rw [ih]
    congr 1
    omega

theorem arrayIterRealizeGo_drop (arr : List JSVal) (ix : Option (List JSVal))
    (k : Nat) (fuel : Nat) (hfuel : arr.length - k < fuel) :
    arrayIterRealizeGo fuel ⟨arr, ix, (k : Int) - 1⟩ = arr.drop k := by
  induction fuel generalizing k with
  | zero => omega
  | succ fuel ih =>
    simp only [arrayIterRealizeGo, arrayIterMoveNext]
    by_cases h : k < arr.length
    · have hb : decide ((k : Int) - 1 + 1 < (arr.length : Int)) = true := by
        simp only [decide_eq_true_eq]
        omega
      rw [hb, if_pos rfl]
      have harg : ((k : Int) - 1 + 1) = ((k + 1 : Nat) : Int) - 1 := by push_cast; omega
      rw [show ({ arr := arr, posIndex := ix, rowIndex := (k : Int) - 1 + 1 } : ArrayIter)
            = ⟨arr, ix, ((k + 1 : Nat) : Int) - 1⟩ by rw [harg]]
      rw [ih (k + 1) (by omega)]
      have hcur : arrayIterGetCurrent ⟨arr, ix, ((k + 1 : Nat) : Int) - 1⟩
          = arr.getD k JSVal.undef := by
        simp only [arrayIterGetCurrent]
        rw [if_pos (by constructor <;> (push_cast; omega))]
        congr 1
        omega
      rw [hcur]
      rw [List.getD_eq_getElem arr JSVal.undef h]
      rw [List.drop_eq_getElem_cons h]
    · have hb : decide ((k : Int) - 1 + 1 < (arr.length : Int)) = false := by
        simp only [decide_eq_false_iff_not]
        omega
      rw [hb, if_neg (by simp)]
      rw [List.drop_eq_nil_of_le (by omega)]

end ArrayIterLemmas

/-- C3: for every array A, an ArrayIterator over A satisfies: the k-th
moveNext call (counting from 1, so the call made after k - 1 previous
calls) returns true exactly when k - 1 < len(A), hence true exactly len(A)
times and then permanently false; at the k-th valid position getCurrent is
A at position k and getCurrentIndex is k itself, or the k-th element of
the optional parallel position array when one was supplied; and realize on
a fresh iterator returns the array A. -/
theorem arrayIterator_correct (A : List JSVal) :
    (∀ k : Nat,
      (arrayIterMoveNext (arrayIterAdvance (arrayIterFresh A) k)).1 = decide (k < A.length))
    ∧ (∀ k : Nat, k < A.length →
        arrayIterGetCurrent (arrayIterAdvance (arrayIterFresh A) (k + 1)) = A.getD k JSVal.undef
        ∧ arrayIterGetCurrentIndex (arrayIterAdvance (arrayIterFresh A) (k + 1)) = JSVal.num k)
    ∧ (∀ ix : List JSVal, ix.length = A.length → ∀ k : Nat, k < A.length →
        arrayIterGetCurrentIndex (arrayIterAdvance ⟨A, some ix, -1⟩ (k + 1))
          = ix.getD k JSVal.undef)
    ∧ arrayIterRealize (arrayIterFresh A) = A := by
  refine ⟨?_, ?_, ?_, ?_⟩
  · intro k
    rw [arrayIterFresh, arrayIterAdvance_fresh]
    simp only [arrayIterMoveNext]
    rw [decide_eq_decide]
    omega
  · intro k hk
    rw [arrayIterFresh, arrayIterAdvance_fresh]
    constructor
    · simp only [arrayIterGetCurrent]
      rw [if_pos (by constructor <;> omega)]
      congr 1
      omega
    · simp only [arrayIterGetCurrentIndex]
      rw [if_pos (by constructor <;> omega)]
      congr 1
      omega
  · intro ix _ k hk
    rw [arrayIterAdvance_fresh]
    simp only [arrayIterGetCurrentIndex]
    rw [if_pos (by constructor <;> omega)]
    congr 1
    omega
  · rw [arrayIterFresh, arrayIterRealize]
    have h0 : (-1 : Int) = ((0 : Nat) : Int) - 1 := by norm_num
    rw [show ({ arr := A, posIndex := none, rowIndex := (-1 : Int) } : ArrayIter)
          = ⟨A, none, ((0 : Nat) : Int) - 1⟩ by rw [h0]]
    rw [arrayIterRealizeGo_drop A none 0 (A.length + 1) (by omega)]
    simp

/-- Witness for arrayIterator_correct at the concrete array with values 7
and 8, and at a singleton array with a parallel position array. -/
theorem arrayIterator_correct_witness :
    arrayIterGetCurrent (arrayIterAdvance (arrayIterFresh [JSVal.num 7, JSVal.num 8]) 1)
      = JSVal.num 7
    ∧ arrayIterGetCurrentIndex (arrayIterAdvance ⟨[JSVal.num 7], some [JSVal.str "x"], -1⟩ 1)
      = JSVal.str "x"
    ∧ arrayIterRealize (arrayIterFresh [JSVal.num 7, JSVal.num 8])
      = [JSVal.num 7, JSVal.num 8] := by
  refine ⟨?_, ?_, ?_⟩
  · have h := ((arrayIterator_correct [JSVal.num 7, JSVal.num 8]).2.1 0 (by decide)).1
    simpa using h
  · have h := (arrayIterator_correct [JSVal.num 7]).2.2.1 [JSVal.str "x"] (by decide) 0 (by decide)
    simpa using h
  · exact (arrayIterator_correct [JSVal.num 7, JSVal.num 8]).2.2.2

/-- C9: constructing an ArrayIterator with both a value array and a
parallel position array succeeds exactly when the two arrays have equal
length, and on success getCurrentIndex at the k-th valid position returns
the k-th element of the position array. -/
theorem arrayIterator_parallel_index (A ix : List JSVal) :
    (exceptOk (arrayIterNew A (some ix)) = true ↔ A.length = ix.length)
    ∧ (∀ s, arrayIterNew A (some ix) = .ok s →
        ∀ k : Nat, k < A.length →
          arrayIterGetCurrentIndex (arrayIterAdvance s (k + 1)) = ix.getD k JSVal.undef) := by
  constructor
  · simp only [arrayIterNew]
    by_cases h : A.length = ix.length
    · rw [if_pos h, exceptOk_ok]
      simpa using h
    · rw [if_neg h, exceptOk_error]
      simpa using h
  · intro s hs k hk
    simp only [arrayIterNew] at hs
    by_cases h : A.length = ix.length
    · rw [if_pos h] at hs
      cases hs
      rw [arrayIterAdvance_fresh]
      simp only [arrayIterGetCurrentIndex]
      rw [if_pos (by constructor <;> omega)]
      congr 1
      omega
    · rw [if_neg h] at hs
      cases hs

/-- Witness for arrayIterator_parallel_index: equal lengths succeed and
the supplied position array is reported, unequal lengths fail. -/
theorem arrayIterator_parallel_index_witness :
    exceptOk (arrayIterNew [JSVal.num 1] (some [JSVal.num 10])) = true
    ∧ exceptOk (arrayIterNew [JSVal.num 1] (some [])) = false
    ∧ arrayIterGetCurrentIndex
        (arrayIterAdvance ⟨[JSVal.num 1], some [JSVal.num 10], -1⟩ 1) = JSVal.num 10 := by
  refine ⟨?_, by rfl, ?_⟩
  · exact (arrayIterator_parallel_index [JSVal.num 1] [JSVal.num 10]).1.mpr (by decide)
  · have h := (arrayIterator_parallel_index [JSVal.num 1] [JSVal.num 10]).2
      ⟨[JSVal.num 1], some [JSVal.num 10], -1⟩ (by rfl) 0 (by decide)
    simpa using h

/-- C2 fails on the code: the generated-sequence cursor built inline by
dataForge.range never returns undefined from getCurrent. Before the first
moveNext call, getCurrent on the cursor of range(5, 2) returns the number
4 (start + the initial counter -1), not undefined; and after the third
moveNext call has returned false (the sequence has only two elements),
getCurrent returns 7, again not undefined. The cursor also defines no
getCurrentIndex member at all, so the claimed contract for
getCurrentIndex cannot hold either. -/
theorem range_cursor_defined_outside_window :
    rangeGetCurrent (rangeIterNew 5 2) = JSVal.num 4
    ∧ rangeGetCurrent (rangeIterNew 5 2) ≠ JSVal.undef
    ∧ (rangeMoveNext (rangeMoveNext (rangeIterNew 5 2)).2).1 = true
    ∧ (rangeMoveNext (rangeMoveNext (rangeMoveNext (rangeIterNew 5 2)).2).2).1 = false
    ∧ rangeGetCurrent (rangeMoveNext (rangeMoveNext (rangeMoveNext
        (rangeIterNew 5 2)).2).2).2 = JSVal.num 7
    ∧ rangeGetCurrent (rangeMoveNext (rangeMoveNext (rangeMoveNext
        (rangeIterNew 5 2)).2).2).2 ≠ JSVal.undef := by
  decide

/-! Series and DataFrame models. A Series realizes a value list and an
index list; a DataFrame additionally has a column-name list. The realized
lists model what toValues and getIndex().toValues() produce by draining
the value and index producers. -/

/-- Realized state of a Series: value sequence and index label sequence. -/
structure SeriesM where
  values : List JSVal
  index : List JSVal
deriving DecidableEq, Repr

/-- Realized state of a DataFrame: column names, row sequence (each row a
cell list positionally aligned with the column names) and index labels. -/
structure DF where
  columnNames : List String
  rows : List (List JSVal)
  index : List JSVal
deriving DecidableEq, Repr

/-- mapRowByColumns: zip the column names with the cells of a row into a
column-keyed row object (linq zip truncates at the shorter sequence). -/
def mapRowByColumns (names : List String) (row : List JSVal) :
    List (String × JSVal) :=
  names.zip row

/-- Property read on a column-keyed row object: the value of the first
matching field, or undefined when no field matches. -/
def jsField (o : List (String × JSVal)) (name : String) : JSVal :=
  match o.find? (fun p => p.1 == name) with
  | some p => p.2
  | none => JSVal.undef

/-- Series.prototype.first: advances the value iterator once; throws when
the iterator yields nothing, otherwise returns the current value. -/
def seriesFirst (s : SeriesM) : Except String JSVal :=
  match s.values with
  | [] => .error "No rows in series."
  | v :: _ => .ok v

/-- Series.prototype.last: advances the value iterator once, throwing when
it yields nothing; otherwise keeps reading until exhaustion and returns
the value seen last. -/
def seriesLast (s : SeriesM) : Except String JSVal :=
  match s.values with
  | [] => .error "No rows in series."
  | v :: vs => .ok (List.foldl (fun _ x => x) v vs)

/-- DataFrame.prototype.first: like Series.first but maps the first row
through mapRowByColumns to a column-keyed row object. -/
def dfFirst (df : DF) : Except String (List (String × JSVal)) :=
  match df.rows with
  | [] => .error "No rows in data-frame."
  | r :: _ => .ok (mapRowByColumns df.columnNames r)

/-- DataFrame.prototype.last: like Series.last but maps the last row
through mapRowByColumns. -/
def dfLast (df : DF) : Except String (List (String × JSVal)) :=
  match df.rows with
  | [] => .error "No rows in data-frame."
  | r :: rs => .ok (mapRowByColumns df.columnNames (List.foldl (fun _ x => x) r rs))

/-- Series.prototype.skip: drop numRows values and index labels. -/
def seriesSkip (s : SeriesM) (numRows : Nat) : SeriesM :=
  ⟨s.values.drop numRows, s.index.drop numRows⟩

/-- Series.prototype.aggregate called with a single function argument and
no seed: folds over skip(1).toValues() seeded with first(), so it throws
exactly when first() does. -/
def seriesAggregateNoSeed (s : SeriesM) (f : JSVal → JSVal → JSVal) :
    Except String JSVal :=
  match seriesFirst s with
  | .error e => .error e
  | .ok v => .ok (List.foldl f v (seriesSkip s 1).values)

/-- C5: first, last (Series and DataFrame) and single-function aggregate
raise exactly on an empty sequence; on a non-empty sequence they return
the first respectively last value, with DataFrame results mapped to a
column-keyed row object, without raising. -/
theorem first_last_empty_sequence (s : SeriesM) (df : DF)
    (f : JSVal → JSVal → JSVal) :
    (exceptOk (seriesFirst s) = true ↔ s.values ≠ [])
    ∧ (exceptOk (seriesLast s) = true ↔ s.values ≠ [])
    ∧ (exceptOk (dfFirst df) = true ↔ df.rows ≠ [])
    ∧ (exceptOk (dfLast df) = true ↔ df.rows ≠ [])
    ∧ (exceptOk (seriesAggregateNoSeed s f) = true ↔ s.values ≠ [])
    ∧ (∀ v vs, s.values = v :: vs → seriesFirst s = .ok v)
    ∧ (∀ v vs, s.values = v :: vs → seriesLast s = .ok (vs.getLastD v))
    ∧ (∀ r rs, df.rows = r :: rs →
        dfFirst df = .ok (mapRowByColumns df.columnNames r))
    ∧ (∀ r rs, df.rows = r :: rs →
        dfLast df = .ok (mapRowByColumns df.columnNames (rs.getLastD r))) := by
  have hfold : ∀ (v : JSVal) (vs : List JSVal),
      List.foldl (fun _ x => x) v vs = vs.getLastD v := by
    intro v vs
    induction vs generalizing v with
    | nil => rfl
    | cons w ws ih =>
      rw [List.foldl_cons, List.getLastD_cons]
      exact ih w
  have hfoldRow : ∀ (r : List JSVal) (rs : List (List JSVal)),
      List.foldl (fun _ x => x) r rs = rs.getLastD r := by
    intro r rs
    induction rs generalizing r with
    | nil => rfl
    | cons w ws ih =>
      rw [List.foldl_cons, List.getLastD_cons]
      exact ih w
  refine ⟨?_, ?_, ?_, ?_, ?_, ?_, ?_, ?_, ?_⟩
  · cases h : s.values <;> simp [seriesFirst, h, exceptOk]
  · cases h : s.values <;> simp [seriesLast, h, exceptOk]
  · cases h : df.rows <;> simp [dfFirst, h, exceptOk]
  · cases h : df.rows <;> simp [dfLast, h, exceptOk]
  · cases h : s.values <;> simp [seriesAggregateNoSeed, seriesFirst, h, exceptOk]
  · intro v vs h
    simp [seriesFirst, h]
  · intro v vs h
    simp [seriesLast, h, hfold]
  · intro r rs h
    simp [dfFirst, h]
  · intro r rs h
    simp [dfLast, h, hfoldRow]

/-- Witness for first_last_empty_sequence at a two-element series, a
one-row data frame and the empty series. -/
theorem first_last_empty_sequence_witness :
    seriesFirst ⟨[JSVal.num 1, JSVal.num 2], [JSVal.num 0, JSVal.num 1]⟩ = .ok (JSVal.num 1)
    ∧ seriesLast ⟨[JSVal.num 1, JSVal.num 2], [JSVal.num 0, JSVal.num 1]⟩ = .ok (JSVal.num 2)
    ∧ exceptOk (seriesFirst ⟨[], []⟩) = false
    ∧ dfFirst ⟨["n"], [[JSVal.num 5]], [JSVal.num 0]⟩ = .ok [("n", JSVal.num 5)] := by
  refine ⟨?_, ?_, ?_, ?_⟩
  · exact (first_last_empty_sequence ⟨[JSVal.num 1, JSVal.num 2], [JSVal.num 0, JSVal.num 1]⟩
      ⟨[], [], []⟩ (fun a _ => a)).2.2.2.2.2.1 (JSVal.num 1) [JSVal.num 2] rfl
  · have h := (first_last_empty_sequence ⟨[JSVal.num 1, JSVal.num 2], [JSVal.num 0, JSVal.num 1]⟩
      ⟨[], [], []⟩ (fun a _ => a)).2.2.2.2.2.2.1 (JSVal.num 1) [JSVal.num 2] rfl
    simpa using h
  · have h := (first_last_empty_sequence ⟨[], []⟩ ⟨[], [], []⟩ (fun a _ => a)).1
    simp only [ne_eq, not_true_eq_false, iff_false, Bool.not_eq_true] at h
    exact h
  · have h := (first_last_empty_sequence ⟨[], []⟩ ⟨["n"], [[JSVal.num 5]], [JSVal.num 0]⟩
      (fun a _ => a)).2.2.2.2.2.2.2.1 [JSVal.num 5] [] rfl
    simpa [mapRowByColumns] using h

/-! Column lookup (C6). -/

/-- Loop body of DataFrame.prototype.getColumnIndex: linear scan returning
the position of the first matching column name, or -1. -/
def getColumnIndexGo (name : String) : List String → Nat → Int
  | [], _ => -1
  | n :: rest, i => if name = n then (i : Int) else getColumnIndexGo name rest (i + 1)

/-- DataFrame.prototype.getColumnIndex: 0-based position of the first
column whose name equals the argument, or -1 when none matches; it never
throws. -/
def dfGetColumnIndex (df : DF) (name : String) : Int :=
  getColumnIndexGo name df.columnNames 0

/-- parseColumnNameOrIndex for a string argument with
failForNonExistantColumn set: throws when getColumnIndex is negative,
otherwise returns the column index. -/
def parseColumnName (df : DF) (name : String) : Except String Int :=
  let columnIndex := dfGetColumnIndex df name
  if columnIndex < 0 then
    .error ("Failed to find column with name " ++ name ++ ".")
  else
    .ok columnIndex

/-- DataFrame.prototype.getSeries for a column name: resolves the column
index (throwing for a missing column) and projects that cell from every
row, sharing the index of the data frame. -/
def dfGetSeries (df : DF) (name : String) : Except String SeriesM :=
  match parseColumnName df name with
  | .error e => .error e
  | .ok columnIndex =>
    .ok ⟨df.rows.map (fun row => row.getD columnIndex.toNat JSVal.undef), df.index⟩

/-- DataFrame.prototype.expectSeries for a column name: verifies existence
via parseColumnNameOrIndex and returns the data frame itself. -/
def dfExpectSeries (df : DF) (name : String) : Except String DF :=
  match parseColumnName df name with
  | .error e => .error e
  | .ok _ => .ok df

theorem getColumnIndexGo_neg (name : String) (names : List String) (i : Nat) :
    getColumnIndexGo name names i = -1 ↔ name ∉ names := by
  induction names generalizing i with
  | nil => simp [getColumnIndexGo]
  | cons n rest ih =>
    simp only [getColumnIndexGo, List.mem_cons]
    by_cases h : name = n
    · rw [if_pos h]
      simp [h]
    · rw [if_neg h]
      rw [ih (i + 1)]
      simp [h]

theorem getColumnIndexGo_found (name : String) (names : List String) (i : Nat)
    (h : name ∈ names) :
    getColumnIndexGo name names i = (i : Int) + (names.indexOf name : Int) := by
  induction names generalizing i with
  | nil => simp at h
  | cons n rest ih =>
    simp only [getColumnIndexGo]
    by_cases hn : name = n
    · rw [if_pos hn, List.indexOf_cons_eq _ hn.symm]
      simp
    · rw [if_neg hn]
      have hmem : name ∈ rest := by
        rcases List.mem_cons.mp h with h1 | h1
        · exact absurd h1 hn
        · exact h1
      rw [ih (i + 1) hmem, List.indexOf_cons_ne _ (Ne.symm hn)]
      push_cast
      omega

theorem indexOf_first_occurrence (names : List String) (name : String)
    (j : Nat) (hj : j < names.indexOf name) (hlen : j < names.length) :
    names.getD j "" ≠ name := by
  induction names generalizing j with
  | nil => simp at hlen
  | cons n rest ih =>
    by_cases hn : n = name
    · rw [List.indexOf_cons_eq _ hn] at hj
      omega
    · rw [List.indexOf_cons_ne _ hn] at hj
      cases j with
      | zero => simpa using hn
      | succ j =>
        have : rest.getD j "" ≠ name := ih j (by omega) (by simpa using hlen)
        simpa using this

/-- C6: getColumnIndex returns the 0-based position of the first matching
column and -1 when none matches (never throwing, since it is a total
function); getSeries and expectSeries with a column name raise exactly
when getColumnIndex is negative, and expectSeries returns the data frame
itself on success. -/
theorem getColumnIndex_missing_column (df : DF) (name : String) :
    (dfGetColumnIndex df name = -1 ↔ name ∉ df.columnNames)
    ∧ (name ∈ df.columnNames →
        dfGetColumnIndex df name = (df.columnNames.indexOf name : Int)
        ∧ df.columnNames.getD (df.columnNames.indexOf name) "" = name
        ∧ ∀ j : Nat, j < df.columnNames.indexOf name → df.columnNames.getD j "" ≠ name)
    ∧ (exceptOk (dfGetSeries df name) = true ↔ 0 ≤ dfGetColumnIndex df name)
    ∧ (exceptOk (dfExpectSeries df name) = true ↔ 0 ≤ dfGetColumnIndex df name)
    ∧ (0 ≤ dfGetColumnIndex df name → dfExpectSeries df name = .ok df) := by
  have hneg : dfGetColumnIndex df name = -1 ↔ name ∉ df.columnNames :=
    getColumnIndexGo_neg name df.columnNames 0
  refine ⟨hneg, ?_, ?_, ?_, ?_⟩
  · intro hmem
    have hfound := getColumnIndexGo_found name df.columnNames 0 hmem
    have hidx : df.columnNames.indexOf name < df.columnNames.length :=
      List.indexOf_lt_length.mpr hmem
    refine ⟨by rw [dfGetColumnIndex, hfound]; omega, ?_, ?_⟩
    · rw [List.getD_eq_getElem _ _ hidx]
      exact List.getElem_indexOf hidx
    · intro j hj
      exact indexOf_first_occurrence df.columnNames name j hj (lt_trans hj hidx)
  · by_cases h : dfGetColumnIndex df name < 0
    · have hp : parseColumnName df name
          = .error ("Failed to find column with name " ++ name ++ ".") := by
        simp only [parseColumnName]
        rw [if_pos h]
      simp only [dfGetSeries, hp, exceptOk_error, Bool.false_eq_true, false_iff]
      omega
    · have hp : parseColumnName df name = .ok (dfGetColumnIndex df name) := by
        simp only [parseColumnName]
        rw [if_neg h]
      simp only [dfGetSeries, hp, exceptOk_ok, true_iff]
      omega
  · by_cases h : dfGetColumnIndex df name < 0
    · have hp : parseColumnName df name
          = .error ("Failed to find column with name " ++ name ++ ".") := by
        simp only [parseColumnName]
        rw [if_pos h]
      simp only [dfExpectSeries, hp, exceptOk_error, Bool.false_eq_true, false_iff]
      omega
    · have hp : parseColumnName df name = .ok (dfGetColumnIndex df name) := by
        simp only [parseColumnName]
        rw [if_neg h]
      simp only [dfExpectSeries, hp, exceptOk_ok, true_iff]
      omega
  · intro h
    have hp : parseColumnName df name = .ok (dfGetColumnIndex df name) := by
      simp only [parseColumnName]
      rw [if_neg (by omega)]
    simp only [dfExpectSeries, hp]

/-- Witness for getColumnIndex_missing_column on a two-column data frame:
a matching name resolves to its position, a missing name to -1, and
expectSeries returns the data frame itself for an existing column while
getSeries fails for a missing one. -/
theorem getColumnIndex_missing_column_witness :
    dfGetColumnIndex ⟨["n", "s"], [], []⟩ "s" = 1
    ∧ dfGetColumnIndex ⟨["n", "s"], [], []⟩ "zz" = -1
    ∧ dfExpectSeries ⟨["n", "s"], [], []⟩ "n" = .ok ⟨["n", "s"], [], []⟩
    ∧ exceptOk (dfGetSeries ⟨["n", "s"], [], []⟩ "zz") = false := by
  refine ⟨?_, ?_, ?_, ?_⟩
  · have h := ((getColumnIndex_missing_column ⟨["n", "s"], [], []⟩ "s").2.1 (by decide)).1
    rw [h]
    decide
  · exact (getColumnIndex_missing_column ⟨["n", "s"], [], []⟩ "zz").1.mpr (by decide)
  · exact (getColumnIndex_missing_column ⟨["n", "s"], [], []⟩ "n").2.2.2.2 (by decide)
  · have h := (getColumnIndex_missing_column ⟨["n", "s"], [], []⟩ "zz").2.2.1
    cases hval : exceptOk (dfGetSeries ⟨["n", "s"], [], []⟩ "zz") with
    | true => exact absurd (h.mp hval) (by decide)
    | false => rfl

/-! Order-by engine (C4, C7, C8). The source implements orderBy and
thenBy by accumulating a batch of sort commands and, at realization time,
folding the batch over the linq chain orderBy / thenBy, which realizes as
one stable lexicographic multi-key sort of the (index, row) tuples. The
stable sort is modelled here by insertion sort with a strict boolean
comparator; linq sorts are stable by specification. -/

/-- Strict lexicographic comparison of char sequences by code point, the
behavior of the JavaScript less-than operator on the strings occurring
here. -/
def charListLt : List Char → List Char → Bool
  | [], [] => false
  | [], _ :: _ => true
  | _ :: _, [] => false
  | a :: as, b :: bs =>
    if a.val.toNat < b.val.toNat then true
    else if b.val.toNat < a.val.toNat then false
    else charListLt as bs

/-- Comparison made by the linq default key comparer on the key values
occurring here: numbers compare numerically, strings lexicographically,
and values of different kinds (or undefined) do not compare. -/
def jsLt : JSVal → JSVal → Bool
  | .num a, .num b => decide (a < b)
  | .str a, .str b => charListLt a.data b.data
  | _, _ => false

/-- One sort command of a batch: the row selector (receiving the
column-mapped row) and the sort-method tag. -/
structure SortCmd where
  sortSelector : List (String × JSVal) → JSVal
  sortMethod : String

/-- A sorted data frame as produced by orderBy: the source data frame and
the accumulated batch; realization is deferred. -/
structure SortedDF where
  src : DF
  batch : List SortCmd

/-- The sort key of a command on one (index, row) tuple: the source skips
the generated index column (position 0), maps the remaining cells by the
column names and applies the sortSelector. -/
def cmdKey (names : List String) (c : SortCmd) (tuple : List JSVal) : JSVal :=
  c.sortSelector (mapRowByColumns names (tuple.drop 1))

/-- Whether a command sorts descending, from its sort-method tag. -/
def cmdDesc (c : SortCmd) : Bool :=
  c.sortMethod == "orderByDescending" || c.sortMethod == "thenByDescending"

/-- Strict comparison of two tuples under one sort command. -/
def cmdLt (names : List String) (c : SortCmd) (a b : List JSVal) : Bool :=
  if cmdDesc c then jsLt (cmdKey names c b) (cmdKey names c a)
  else jsLt (cmdKey names c a) (cmdKey names c b)

/-- Strict lexicographic comparison of two tuples under a batch: the first
command is primary and each later command is consulted only when all
earlier commands leave the two tuples tied. -/
def batchLt (names : List String) : List SortCmd → List JSVal → List JSVal → Bool
  | [], _, _ => false
  | c :: rest, a, b =>
    if cmdLt names c a b then true
    else if cmdLt names c b a then false
    else batchLt names rest a b

/-- Stable insertion of an element into a list: the element moves past
exactly the elements strictly below it, so it lands before every element
it ties with. -/
def insertBy {α : Type} (lt : α → α → Bool) (x : α) : List α → List α
  | [] => [x]
  | y :: ys => if lt y x then y :: insertBy lt x ys else x :: y :: ys

/-- Stable sort by a strict boolean comparator (insertion sort). -/
def stableSortBy {α : Type} (lt : α → α → Bool) : List α → List α
  | [] => []
  | x :: xs => insertBy lt x (stableSortBy lt xs)

/-- The (index, row) tuples of a data frame, index label first, as built
by executeOrderBy before sorting (linq zip truncates at the shorter of
the two realized sequences). -/
def dfValuesWithIndex (df : DF) : List (List JSVal) :=
  (df.index.zip df.rows).map (fun p => p.1 :: p.2)

/-- The sorted tuple sequence computed by executeLazySort: the batch
folded over the linq orderBy / thenBy chain, realized as one stable
multi-key sort of the (index, row) tuples. -/
def executeLazySort (so : SortedDF) : List (List JSVal) :=
  stableSortBy (batchLt so.src.columnNames so.batch) (dfValuesWithIndex so.src)

/-- Realized rows of a sorted data frame: each sorted tuple minus the
index column. -/
def sortedRows (so : SortedDF) : List (List JSVal) :=
  (executeLazySort so).map (fun row => row.drop 1)

/-- Realized index of a sorted data frame: position 0 of each sorted
tuple. -/
def sortedIndex (so : SortedDF) : List JSVal :=
  (executeLazySort so).map (fun row => row.headD JSVal.undef)

/-- The key tuple of a batch on one (index, row) tuple. -/
def batchKeys (names : List String) (batch : List SortCmd) (t : List JSVal) :
    List JSVal :=
  batch.map (fun c => cmdKey names c t)

section StableSortLemmas

variable {α : Type}

theorem insertBy_perm (lt : α → α → Bool) (x : α) (l : List α) :
    (insertBy lt x l).Perm (x :: l) := by
  induction l with
  | nil => simp [insertBy]
  | cons y ys ih =>
    simp only [insertBy]
    by_cases h : lt y x
    · rw [if_pos h]
      exact (ih.cons y).trans (List.Perm.swap x y ys)
    · rw [if_neg h]

theorem stableSortBy_perm (lt : α → α → Bool) (l : List α) :
    (stableSortBy lt l).Perm l := by
  induction l with
  | nil => simp [stableSortBy]
  | cons x xs ih =>
    simp only [stableSortBy]
    exact (insertBy_perm lt x (stableSortBy lt xs)).trans (ih.cons x)

theorem filter_insertBy_pos (lt : α → α → Bool) (p : α → Bool) (x : α)
    (l : List α) (hx : p x = true) (hstop : ∀ y, p y = true → lt y x = false) :
    (insertBy lt x l).filter p = x :: l.filter p := by
  induction l with
  | nil => simp [insertBy, hx]
  | cons y ys ih =>
    simp only [insertBy]
    by_cases h : lt y x
    · rw [if_pos h]
      have hpy : p y = false := by
        cases hy : p y
        · rfl
        · exact absurd (hstop y hy) (by simp [h])
      simp [List.filter_cons, hpy, ih]
    · rw [if_neg h]
      simp [List.filter_cons, hx]

theorem filter_insertBy_neg (lt : α → α → Bool) (p : α → Bool) (x : α)
    (l : List α) (hx : p x = false) :
    (insertBy lt x l).filter p = l.filter p := by
  induction l with
  | nil => simp [insertBy, hx]
  | cons y ys ih =>
    simp only [insertBy]
    by_cases h : lt y x
    · rw [if_pos h]
      simp [List.filter_cons, ih]
    · rw [if_neg h]
      simp [List.filter_cons, hx]

theorem filter_stableSortBy (lt : α → α → Bool) (p : α → Bool)
    (hp : ∀ a b, p a = true → p b = true → lt a b = false) (l : List α) :
    (stableSortBy lt l).filter p = l.filter p := by
  induction l with
  | nil => rfl
  | cons x xs ih =>
    simp only [stableSortBy]
    cases hx : p x
    · rw [filter_insertBy_neg lt p x _ hx, ih]
      simp [List.filter_cons, hx]
    · rw [filter_insertBy_pos lt p x _ hx (fun y hy => hp y x hy hx), ih]
      simp [List.filter_cons, hx]

theorem insertBy_pairwise (lt : α → α → Bool) (P : α → Prop)
    (hasym : ∀ a b, P a → P b → lt a b = true → lt b a = false)
    (hntrans : ∀ a b c, P a → P b → P c →
      lt b a = false → lt c b = false → lt c a = false)
    (x : α) (l : List α) (hPx : P x) (hPl : ∀ y ∈ l, P y)
    (hl : l.Pairwise (fun a b => lt b a = false)) :
    (insertBy lt x l).Pairwise (fun a b => lt b a = false) := by
  induction l with
  | nil => simp [insertBy]
  | cons y ys ih =>
    simp only [insertBy]
    rcases List.pairwise_cons.mp hl with ⟨hy, hys⟩
    by_cases h : lt y x
    · rw [if_pos h]
      refine List.pairwise_cons.mpr
        ⟨?_, ih (fun z hz => hPl z (List.mem_cons_of_mem y hz)) hys⟩
      intro b hb
      have hmem := (insertBy_perm lt x ys).mem_iff.mp hb
      rcases List.mem_cons.mp hmem with rfl | hbys
      · exact hasym y b (hPl y (List.mem_cons_self y ys)) hPx h
      · exact hy b hbys
    · rw [if_neg h]
      refine List.pairwise_cons.mpr ⟨?_, hl⟩
      intro b hb
      rcases List.mem_cons.mp hb with rfl | hbys
      · simpa using h
      · exact hntrans x y b hPx (hPl y (List.mem_cons_self y ys))
          (hPl b (List.mem_cons_of_mem y hbys)) (by simpa using h) (hy b hbys)

theorem stableSortBy_pairwise (lt : α → α → Bool) (P : α → Prop)
    (hasym : ∀ a b, P a → P b → lt a b = true → lt b a = false)
    (hntrans : ∀ a b c, P a → P b → P c →
      lt b a = false → lt c b = false → lt c a = false)
    (l : List α) (hPl : ∀ y ∈ l, P y) :
    (stableSortBy lt l).Pairwise (fun a b => lt b a = false) := by
  induction l with
  | nil => simp [stableSortBy]
  | cons x xs ih =>
    simp only [stableSortBy]
    have hPxs : ∀ y ∈ xs, P y := fun y hy => hPl y (List.mem_cons_of_mem x hy)
    refine insertBy_pairwise lt P hasym hntrans x _
      (hPl x (List.mem_cons_self x xs)) ?_ (ih hPxs)
    intro y hy
    exact hPxs y ((stableSortBy_perm lt xs).mem_iff.mp hy)

end StableSortLemmas

/-- A tuple whose sort keys under every command of the batch are numbers;
on such tuples the composite comparison is a total preorder. -/
def numericKeys (names : List String) (batch : List SortCmd)
    (t : List JSVal) : Prop :=
  ∀ c ∈ batch, ∃ n : Int, cmdKey names c t = JSVal.num n

theorem charListLt_irrefl (l : List Char) : charListLt l l = false := by
  induction l with
  | nil => rfl
  | cons a as ih => simp [charListLt, ih]

theorem jsLt_irrefl (v : JSVal) : jsLt v v = false := by
  cases v <;> simp [jsLt, charListLt_irrefl]

theorem batchLt_of_keys_eq (names : List String) (batch : List SortCmd)
    (a b : List JSVal) (h : batchKeys names batch a = batchKeys names batch b) :
    batchLt names batch a b = false := by
  induction batch with
  | nil => rfl
  | cons c rest ih =>
    simp only [batchKeys, List.map_cons, List.cons.injEq] at h
    rcases h with ⟨h1, h2⟩
    have hc : cmdLt names c a b = false := by
      simp only [cmdLt, h1]
      cases cmdDesc c <;> simp [jsLt_irrefl]
    have hc2 : cmdLt names c b a = false := by
      simp only [cmdLt, h1]
      cases cmdDesc c <;> simp [jsLt_irrefl]
    simp only [batchLt, hc, hc2]
    simp only [Bool.false_eq_true, if_false]
    exact ih h2

theorem cmdLt_num_eff (names : List String) (c : SortCmd) {a b : List JSVal}
    {ka kb : Int} (hka : cmdKey names c a = JSVal.num ka)
    (hkb : cmdKey names c b = JSVal.num kb) :
    cmdLt names c a b
      = decide ((if cmdDesc c then -ka else ka) < (if cmdDesc c then -kb else kb)) := by
  cases hd : cmdDesc c
  · simp [cmdLt, hd, hka, hkb, jsLt]
  · simp only [cmdLt, hd, hka, hkb, jsLt, if_true]
    rw [decide_eq_decide]
    omega

theorem batchLt_cons_eff (names : List String) (c : SortCmd)
    (rest : List SortCmd) (a b : List JSVal) (ea eb : Int)
    (h1 : cmdLt names c a b = decide (ea < eb))
    (h2 : cmdLt names c b a = decide (eb < ea)) :
    batchLt names (c :: rest) a b
      = if ea < eb then true else if eb < ea then false
        else batchLt names rest a b := by
  simp only [batchLt, h1, h2]
  by_cases h3 : ea < eb
  · rw [if_pos (by simpa using h3), if_pos h3]
  · rw [if_neg (by simpa using h3), if_neg h3]
    by_cases h4 : eb < ea
    · rw [if_pos (by simpa using h4), if_pos h4]
    · rw [if_neg (by simpa using h4), if_neg h4]

theorem batchLt_asym (names : List String) (batch : List SortCmd) :
    ∀ a b, numericKeys names batch a → numericKeys names batch b →
      batchLt names batch a b = true → batchLt names batch b a = false := by
  induction batch with
  | nil =>
    intro a b _ _ h
    simp [batchLt] at h
  | cons c rest ih =>
    intro a b hA hB h
    obtain ⟨ka, hka⟩ := hA c (List.mem_cons_self c rest)
    obtain ⟨kb, hkb⟩ := hB c (List.mem_cons_self c rest)
    have e1 := cmdLt_num_eff names c hka hkb
    have e2 := cmdLt_num_eff names c hkb hka
    rw [batchLt_cons_eff names c rest a b _ _ e1 e2] at h
    rw [batchLt_cons_eff names c rest b a _ _ e2 e1]
    by_cases h3 : (if cmdDesc c then -ka else ka) < (if cmdDesc c then -kb else kb)
    · rw [if_neg (by omega), if_pos h3]
    · rw [if_neg h3] at h
      by_cases h4 : (if cmdDesc c then -kb else kb) < (if cmdDesc c then -ka else ka)
      · rw [if_pos h4] at h
        cases h
      · rw [if_neg h4] at h
        rw [if_neg h4, if_neg h3]
        exact ih a b (fun d hd => hA d (List.mem_cons_of_mem c hd))
          (fun d hd => hB d (List.mem_cons_of_mem c hd)) h

theorem batchLt_ntrans (names : List String) (batch : List SortCmd) :
    ∀ a b c, numericKeys names batch a → numericKeys names batch b →
      numericKeys names batch c →
      batchLt names batch b a = false → batchLt names batch c b = false →
      batchLt names batch c a = false := by
  induction batch with
  | nil =>
    intro a b c _ _ _ _ _
    rfl
  | cons d rest ih =>
    intro a b c hA hB hC hba hcb
    obtain ⟨ka, hka⟩ := hA d (List.mem_cons_self d rest)
    obtain ⟨kb, hkb⟩ := hB d (List.mem_cons_self d rest)
    obtain ⟨kc, hkc⟩ := hC d (List.mem_cons_self d rest)
    have eab := cmdLt_num_eff names d hka hkb
    have eba := cmdLt_num_eff names d hkb hka
    have ebc := cmdLt_num_eff names d hkb hkc
    have ecb := cmdLt_num_eff names d hkc hkb
    have eac := cmdLt_num_eff names d hka hkc
    have eca := cmdLt_num_eff names d hkc hka
    rw [batchLt_cons_eff names d rest b a _ _ eba eab] at hba
    rw [batchLt_cons_eff names d rest c b _ _ ecb ebc] at hcb
    rw [batchLt_cons_eff names d rest c a _ _ eca eac]
    set ea := (if cmdDesc d then -ka else ka) with hea
    set eb := (if cmdDesc d then -kb else kb) with heb
    set ec := (if cmdDesc d then -kc else kc) with hec
    by_cases h1 : eb < ea
    · rw [if_pos h1] at hba
      cases hba
    · rw [if_neg h1] at hba
      by_cases h2 : ec < eb
      · rw [if_pos h2] at hcb
        cases hcb
      · rw [if_neg h2] at hcb
        rw [if_neg (by omega)]
        by_cases h3 : ea < eb
        · rw [if_pos (by omega)]
        · by_cases h4 : eb < ec
          · rw [if_pos (by omega)]
          · rw [if_neg (by omega)]
            rw [if_neg h3] at hba
            rw [if_neg h4] at hcb
            exact ih a b c (fun x hx => hA x (List.mem_cons_of_mem d hx))
              (fun x hx => hB x (List.mem_cons_of_mem d hx))
              (fun x hx => hC x (List.mem_cons_of_mem d hx)) hba hcb

/-! Call-time processing of sort arguments (C8) and the concrete
order-by scenario (C4). -/

/-- Argument forms accepted by orderBy, orderByDescending and the
thenBy functions of a sorted DataFrame: a selector function, a column
index number, a column name string, or any other value. -/
inductive ColSpec where
  | selFn (f : List (String × JSVal) → JSVal)
  | byNum (n : Int)
  | byName (s : String)
  | invalid

/-- processColumnSelector: a function argument is returned as is; a number
must be an in-range column index and is replaced by a selector reading
that column; a string is accepted unconditionally as a column name; every
other argument fails the isString assertion. -/
def processColumnSelector (df : DF) (a : ColSpec) :
    Except String (List (String × JSVal) → JSVal) :=
  match a with
  | .selFn f => .ok f
  | .byNum n =>
    if 0 ≤ n ∧ n < (df.columnNames.length : Int) then
      .ok (fun row => jsField row (df.columnNames.getD n.toNat ""))
    else
      .error "Bad column index specified for the columnNameOrIndexOrSelector parameter to orderBy, expected a column index in range."
  | .byName s => .ok (fun row => jsField row s)
  | .invalid =>
    .error "Expected the columnNameOrIndexOrSelector parameter to be a column name, a column index or a selector function."

/-- validateSortMethod: throws unless the tag is one of the four sort
method names. -/
def validateSortMethod (m : String) : Except String Unit :=
  if m = "orderBy" ∨ m = "orderByDescending" ∨ m = "thenBy" ∨ m = "thenByDescending"
  then .ok ()
  else .error "Expected sortMethod to be one of the four order method tags."

/-- DataFrame.prototype.orderBy / orderByDescending: processes the column
selector at call time, validates the sort-method tag, and returns a sorted
data frame holding the untouched source and a one-command batch; no
sorting happens at the call. -/
def dfOrderByCall (df : DF) (descending : Bool) (a : ColSpec) :
    Except String SortedDF :=
  match processColumnSelector df a with
  | .error e => .error e
  | .ok sel =>
    match validateSortMethod (if descending then "orderByDescending" else "orderBy") with
    | .error e => .error e
    | .ok _ =>
      .ok ⟨df, [⟨sel, if descending then "orderByDescending" else "orderBy"⟩]⟩

/-- The thenBy / thenByDescending function attached to a sorted
DataFrame: processes the argument at call time and returns a new sorted
object whose batch is the old batch concatenated (a fresh array, the old
batch untouched) with the new command. -/
def dfThenByCall (so : SortedDF) (descending : Bool) (a : ColSpec) :
    Except String SortedDF :=
  match processColumnSelector so.src a with
  | .error e => .error e
  | .ok sel =>
    .ok ⟨so.src, so.batch ++ [⟨sel, if descending then "thenByDescending" else "thenBy"⟩]⟩

/-- The concrete scenario data frame: columns n and s, rows
[[1, a], [2, b]], auto-generated index 0, 1. -/
def exDF : DF :=
  ⟨["n", "s"],
   [[JSVal.num 1, JSVal.str "a"], [JSVal.num 2, JSVal.str "b"]],
   [JSVal.num 0, JSVal.num 1]⟩

/-- C4: realizing an order-by batch applies one stable multi-key sort to
the (index, row) tuples. The realized (index, row) pairs are a
permutation of the original pairs (so the index is permuted identically
to the rows and stays 1:1); tuples agreeing on every sort key keep their
original relative order; when the keys are comparable (numeric) the
output is sorted by the composite comparison in which the first key is
primary and each later key only breaks ties of the earlier ones; and
concretely orderByDescending of column n on the example data frame
realizes rows [[2, b], [1, a]] with index [1, 0]. -/
theorem orderBy_stable_multikey (df : DF) (batch : List SortCmd)
    (_hbatch : batch ≠ []) :
    ((sortedIndex ⟨df, batch⟩).zip (sortedRows ⟨df, batch⟩)).Perm
        (df.index.zip df.rows)
    ∧ (sortedIndex ⟨df, batch⟩).length = (sortedRows ⟨df, batch⟩).length
    ∧ (∀ ks : List JSVal,
        (executeLazySort ⟨df, batch⟩).filter
            (fun t => decide (batchKeys df.columnNames batch t = ks))
          = (dfValuesWithIndex df).filter
            (fun t => decide (batchKeys df.columnNames batch t = ks)))
    ∧ ((∀ t ∈ dfValuesWithIndex df, numericKeys df.columnNames batch t) →
        (executeLazySort ⟨df, batch⟩).Pairwise
          (fun a b => batchLt df.columnNames batch b a = false))
    ∧ (dfOrderByCall exDF true (ColSpec.byName "n")).map sortedRows
        = .ok [[JSVal.num 2, JSVal.str "b"], [JSVal.num 1, JSVal.str "a"]]
    ∧ (dfOrderByCall exDF true (ColSpec.byName "n")).map sortedIndex
        = .ok [JSVal.num 1, JSVal.num 0] := by
  refine ⟨?_, ?_, ?_, ?_, ?_, ?_⟩
  · have hz : (sortedIndex ⟨df, batch⟩).zip (sortedRows ⟨df, batch⟩)
        = (executeLazySort ⟨df, batch⟩).map
            (fun t => (t.headD JSVal.undef, t.drop 1)) := by
      simp only [sortedIndex, sortedRows]
      rw [List.zip_map']
    rw [hz]
    have hperm := (stableSortBy_perm (batchLt df.columnNames batch)
        (dfValuesWithIndex df)).map (fun t => (t.headD JSVal.undef, t.drop 1))
    refine hperm.trans ?_
    have hmap : (dfValuesWithIndex df).map (fun t => (t.headD JSVal.undef, t.drop 1))
        = df.index.zip df.rows := by
      simp only [dfValuesWithIndex, List.map_map]
      have hfun : ((fun t => (List.headD t JSVal.undef, List.drop 1 t))
            ∘ fun (p : JSVal × List JSVal) => p.1 :: p.2)
          = fun (p : JSVal × List JSVal) => (p.1, p.2) := by
        funext p
        simp
      rw [hfun]
      simp
    rw [hmap]
  · simp [sortedIndex, sortedRows]
  · intro ks
    refine filter_stableSortBy _ _ ?_ _
    intro a b ha hb
    have ha2 : batchKeys df.columnNames batch a = ks := of_decide_eq_true ha
    have hb2 : batchKeys df.columnNames batch b = ks := of_decide_eq_true hb
    exact batchLt_of_keys_eq _ _ _ _ (ha2.trans hb2.symm)
  · intro hnum
    exact stableSortBy_pairwise _ (numericKeys df.columnNames batch)
      (batchLt_asym df.columnNames batch) (batchLt_ntrans df.columnNames batch)
      _ hnum
  · rfl
  · rfl

/-- The concrete one-command batch of orderByDescending on column n. -/
def exBatch : List SortCmd := [⟨fun row => jsField row "n", "orderByDescending"⟩]

/-- Witness for orderBy_stable_multikey at the example data frame and the
descending single-key batch, discharging the non-empty-batch and
numeric-key hypotheses. -/
theorem orderBy_stable_multikey_witness :
    ((sortedIndex ⟨exDF, exBatch⟩).zip (sortedRows ⟨exDF, exBatch⟩)).Perm
        (exDF.index.zip exDF.rows)
    ∧ (executeLazySort ⟨exDF, exBatch⟩).Pairwise
        (fun a b => batchLt exDF.columnNames exBatch b a = false) := by
  have hth := orderBy_stable_multikey exDF exBatch (by simp [exBatch])
  refine ⟨hth.1, hth.2.2.2.1 ?_⟩
  intro t ht c hc
  have hvwi : dfValuesWithIndex exDF
      = [[JSVal.num 0, JSVal.num 1, JSVal.str "a"],
         [JSVal.num 1, JSVal.num 2, JSVal.str "b"]] := rfl
  rw [hvwi] at ht
  simp only [exBatch, List.mem_singleton] at hc
  subst hc
  rcases List.mem_cons.mp ht with rfl | ht2
  · exact ⟨1, rfl⟩
  · rcases List.mem_cons.mp ht2 with rfl | ht3
    · exact ⟨2, rfl⟩
    · cases ht3

/-- C8: orderBy and orderByDescending (and thenBy on a sorted result)
succeed at call time exactly for a selector function, a column name
string, or an in-range column index, and fail at the call itself for any
other argument; on success the call only packages the processed selector
into a batch next to the untouched source (sorting is deferred to the
separate realization functions), so call success does not depend on the
row data at all. -/
theorem orderBy_invalid_argument_fail_fast (df : DF) (desc : Bool)
    (so : SortedDF) :
    (∀ f, exceptOk (dfOrderByCall df desc (ColSpec.selFn f)) = true)
    ∧ (∀ s, exceptOk (dfOrderByCall df desc (ColSpec.byName s)) = true)
    ∧ (∀ n : Int, exceptOk (dfOrderByCall df desc (ColSpec.byNum n)) = true
        ↔ 0 ≤ n ∧ n < (df.columnNames.length : Int))
    ∧ exceptOk (dfOrderByCall df desc ColSpec.invalid) = false
    ∧ (∀ f, dfOrderByCall df desc (ColSpec.selFn f)
        = .ok ⟨df, [⟨f, if desc then "orderByDescending" else "orderBy"⟩]⟩)
    ∧ (∀ a rows2, exceptOk (dfOrderByCall df desc a)
        = exceptOk (dfOrderByCall ⟨df.columnNames, rows2, df.index⟩ desc a))
    ∧ (∀ f, exceptOk (dfThenByCall so desc (ColSpec.selFn f)) = true
        ∧ (dfThenByCall so desc (ColSpec.selFn f)).map SortedDF.batch
          = .ok (so.batch ++ [⟨f, if desc then "thenByDescending" else "thenBy"⟩]))
    ∧ exceptOk (dfThenByCall so desc ColSpec.invalid) = false := by
  have hvalid : validateSortMethod (if desc then "orderByDescending" else "orderBy")
      = .ok () := by
    cases desc <;> rfl
  refine ⟨?_, ?_, ?_, ?_, ?_, ?_, ?_, ?_⟩
  · intro f
    simp only [dfOrderByCall, processColumnSelector, hvalid, exceptOk_ok]
  · intro s
    simp only [dfOrderByCall, processColumnSelector, hvalid, exceptOk_ok]
  · intro n
    by_cases h : 0 ≤ n ∧ n < (df.columnNames.length : Int)
    · simp only [dfOrderByCall, processColumnSelector]
      rw [if_pos h]
      simp only [hvalid, exceptOk_ok]
      simpa using h
    · simp only [dfOrderByCall, processColumnSelector]
      rw [if_neg h]
      simp only [exceptOk_error]
      simpa using h
  · simp only [dfOrderByCall, processColumnSelector, exceptOk_error]
  · intro f
    simp only [dfOrderByCall, processColumnSelector, hvalid]
  · intro a rows2
    have h1 : processColumnSelector ⟨df.columnNames, rows2, df.index⟩ a
        = processColumnSelector df a := by
      cases a <;> rfl
    simp only [dfOrderByCall, h1]
    cases hres : processColumnSelector df a with
    | error e => rfl
    | ok sel =>
      rw [hvalid]
      rfl
  · intro f
    exact ⟨rfl, rfl⟩
  · rfl

/-- Witness for orderBy_invalid_argument_fail_fast at the example data
frame: name and in-range index succeed, an invalid argument fails. -/
theorem orderBy_invalid_argument_witness :
    exceptOk (dfOrderByCall exDF false (ColSpec.byName "n")) = true
    ∧ exceptOk (dfOrderByCall exDF false (ColSpec.byNum 0)) = true
    ∧ exceptOk (dfOrderByCall exDF false ColSpec.invalid) = false
    ∧ exceptOk (dfThenByCall ⟨exDF, exBatch⟩ false ColSpec.invalid) = false := by
  have hth := orderBy_invalid_argument_fail_fast exDF false ⟨exDF, exBatch⟩
  exact ⟨hth.2.1 "n", (hth.2.2.1 0).mpr (by decide), hth.2.2.2.1,
    hth.2.2.2.2.2.2.2⟩

/-! DataFrame.selectMany and the index-parallel invariant (C1). The
combinator cursors this operator composes (SelectMany, Multi, Select) are
not among the sources, so their realization semantics are taken from the
spec, section 4.2: SelectMany concatenates per-element replacement
sequences in upstream order, Multi advances all children in lockstep and
stops at the shortest child (the zip), Select maps. On realized lists
these are flatMap, zip and map. -/

/-- Argument passed to a DataFrame selectMany selector at its two call
sites: the rows producer passes the column-mapped row object, the index
producer passes the raw row array. -/
inductive SMArg where
  | rawRow (row : List JSVal)
  | mappedRow (o : List (String × JSVal))

/-- JavaScript property read on the selector argument: a field lookup on
the object form; a string-named property read on a raw array yields
undefined. -/
def smField (a : SMArg) (name : String) : JSVal :=
  match a with
  | .rawRow _ => JSVal.undef
  | .mappedRow o => jsField o name

/-- Modelled from the spec: realized rows of DataFrame.prototype.selectMany,
a SelectMany cursor over the rows whose selector receives the
column-mapped row object. -/
def dfSelectManyRows (df : DF) (selector : SMArg → List (List JSVal)) :
    List (List JSVal) :=
  df.rows.flatMap
    (fun row => selector (SMArg.mappedRow (mapRowByColumns df.columnNames row)))

/-- Modelled from the spec (cursor semantics) and src (call sites):
realized index of DataFrame.prototype.selectMany as the source builds it,
a Select of the first components of a SelectMany over the Multi of
(index, rows) whose function applies the user selector to pair[1], the
RAW row array. -/
def dfSelectManyIndex (df : DF) (selector : SMArg → List (List JSVal)) :
    List JSVal :=
  ((df.index.zip df.rows).flatMap
      (fun pair => (selector (SMArg.rawRow pair.2)).map
        (fun value => (pair.1, value)))).map Prod.fst

/-- Modelled from the spec: the index producer the lockstep invariant
demands, applying the SAME selector to the SAME column-mapped row as the
rows producer. -/
def dfSelectManyIndexSpec (df : DF) (selector : SMArg → List (List JSVal)) :
    List JSVal :=
  ((df.index.zip df.rows).flatMap
      (fun pair => (selector (SMArg.mappedRow
          (mapRowByColumns df.columnNames pair.2))).map
        (fun value => (pair.1, value)))).map Prod.fst

/-- The failing input data frame for C1: one column n, one row [2],
index [0]. -/
def smBugDF : DF := ⟨["n"], [[JSVal.num 2]], [JSVal.num 0]⟩

/-- The failing selector for C1, as a JS function:
row => typeof row.n === number, in which case it returns row.n
replacement rows, and one replacement row otherwise. On the raw row
array, reading property n yields undefined. -/
def smBugSelector (a : SMArg) : List (List JSVal) :=
  match smField a "n" with
  | JSVal.num k => List.replicate k.toNat [JSVal.num 1]
  | _ => [[JSVal.num 99]]

/-- C1 fails on the code: DataFrame.prototype.selectMany applies the
selector to the column-mapped row in its rows producer but to the raw row
array in its index producer. On smBugDF with smBugSelector the realized
rows number two while the realized index has a single label, breaking the
1:1 lockstep invariant; the spec-demanded index producer (same selector,
same column-mapped row) produces two labels, in lockstep. -/
theorem selectMany_lockstep_broken :
    (dfSelectManyRows smBugDF smBugSelector).length = 2
    ∧ (dfSelectManyIndex smBugDF smBugSelector).length = 1
    ∧ (dfSelectManyIndexSpec smBugDF smBugSelector).length = 2
    ∧ dfSelectManyRows smBugDF smBugSelector = [[JSVal.num 1], [JSVal.num 1]]
    ∧ dfSelectManyIndex smBugDF smBugSelector = [JSVal.num 0]
    ∧ dfSelectManyIndexSpec smBugDF smBugSelector = [JSVal.num 0, JSVal.num 0] := by
  refine ⟨rfl, rfl, rfl, rfl, rfl, rfl⟩

/-! Column-name inference in the DataFrame constructor (C10). -/

/-- Loop of the linq distinct operator: keep the first occurrence of each
element, in order of first appearance. -/
def distinctFirstGo (seen : List String) : List String → List String
  | [] => []
  | x :: xs =>
    if x ∈ seen then distinctFirstGo seen xs
    else x :: distinctFirstGo (x :: seen) xs

/-- The linq distinct operator on a string sequence. -/
def distinctFirst (l : List String) : List String := distinctFirstGo [] l

/-- DataFrame constructed from an array of row objects without explicit
columnNames: column names are the distinct union of the field names over
ALL rows in order of first appearance, each realized row maps every
column name through the object fields (undefined when absent), and the
index is the auto-generated 0..N-1 sequence. -/
def dfFromObjectRows (objRows : List (List (String × JSVal))) : DF :=
  { columnNames := distinctFirst (objRows.flatMap (fun r => r.map Prod.fst)),
    rows := objRows.map (fun r =>
      (distinctFirst (objRows.flatMap (fun rr => rr.map Prod.fst))).map
        (fun n => jsField r n)),
    index := (List.range objRows.length).map (fun i => JSVal.num i) }

/-- DataFrame constructed from a zero-argument rows-producer function
without explicit columnNames, the producer realizing the given object
rows: determineColumnNames peeks only the FIRST produced row (an empty
production gives []), and every realized row maps just those names. -/
def dfFromRowsFn (produced : List (List (String × JSVal))) : DF :=
  { columnNames := match produced with
      | [] => []
      | r :: _ => r.map Prod.fst,
    rows := produced.map (fun r =>
      (match produced with
        | [] => ([] : List String)
        | r0 :: _ => r0.map Prod.fst).map (fun n => jsField r n)),
    index := (List.range produced.length).map (fun i => JSVal.num i) }

theorem distinctFirstGo_mem (l : List String) :
    ∀ (seen : List String) (x : String),
      x ∈ distinctFirstGo seen l ↔ x ∈ l ∧ x ∉ seen := by
  induction l with
  | nil =>
    intro seen x
    simp [distinctFirstGo]
  | cons y ys ih =>
    intro seen x
    simp only [distinctFirstGo]
    by_cases h : y ∈ seen
    · rw [if_pos h, ih seen]
      constructor
      · rintro ⟨hx, hs⟩
        exact ⟨List.mem_cons_of_mem y hx, hs⟩
      · rintro ⟨hx, hs⟩
        rcases List.mem_cons.mp hx with rfl | hx2
        · exact absurd h hs
        · exact ⟨hx2, hs⟩
    · rw [if_neg h]
      constructor
      · intro hx
        rcases List.mem_cons.mp hx with rfl | hx2
        · exact ⟨List.mem_cons_self x ys, h⟩
        · rcases (ih (y :: seen) x).mp hx2 with ⟨h1, h2⟩
          exact ⟨List.mem_cons_of_mem y h1,
            fun hs => h2 (List.mem_cons_of_mem y hs)⟩
      · rintro ⟨hx, hs⟩
        rcases List.mem_cons.mp hx with rfl | hx2
        · exact List.mem_cons_self x _
        · by_cases hxy : x = y
          · subst hxy
            exact List.mem_cons_self x _
          · refine List.mem_cons_of_mem y ((ih (y :: seen) x).mpr ⟨hx2, ?_⟩)
            intro hmem
            rcases List.mem_cons.mp hmem with h3 | h3
            · exact hxy h3
            · exact hs h3

theorem distinctFirstGo_nodup (l : List String) :
    ∀ seen : List String, (distinctFirstGo seen l).Nodup := by
  induction l with
  | nil =>
    intro seen
    simp [distinctFirstGo]
  | cons y ys ih =>
    intro seen
    simp only [distinctFirstGo]
    by_cases h : y ∈ seen
    · rw [if_pos h]
      exact ih seen
    · rw [if_neg h]
      refine List.nodup_cons.mpr ⟨?_, ih (y :: seen)⟩
      intro hmem
      exact ((distinctFirstGo_mem ys (y :: seen) y).mp hmem).2
        (List.mem_cons_self y seen)

theorem distinctFirstGo_sublist (l : List String) :
    ∀ seen : List String, (distinctFirstGo seen l).Sublist l := by
  induction l with
  | nil =>
    intro seen
    simp [distinctFirstGo]
  | cons y ys ih =>
    intro seen
    simp only [distinctFirstGo]
    by_cases h : y ∈ seen
    · rw [if_pos h]
      exact (ih seen).trans (List.sublist_cons_self y ys)
    · rw [if_neg h]
      exact (ih (y :: seen)).cons₂ y

/-- The concrete contrasting input for C10: a first row with only field a
and a second row with fields a and b. -/
def exObjRows : List (List (String × JSVal)) :=
  [[("a", JSVal.num 1)], [("a", JSVal.num 2), ("b", JSVal.num 3)]]

/-- C10: without explicit columnNames, construction from an ARRAY of row
objects infers the distinct union of field names over all rows in order
of first appearance (without duplicates, preserving first-appearance
order as a sublist of the concatenated key lists), while construction
from a rows-producer FUNCTION infers only the keys of the first produced
row (the empty production giving []), so fields appearing only in later
rows are dropped from every realized row, as the concrete contrast shows. -/
theorem column_name_inference
    (objRows produced : List (List (String × JSVal))) :
    (dfFromObjectRows objRows).columnNames.Nodup
    ∧ (∀ n, n ∈ (dfFromObjectRows objRows).columnNames
        ↔ ∃ r ∈ objRows, n ∈ r.map Prod.fst)
    ∧ (dfFromObjectRows objRows).columnNames.Sublist
        (objRows.flatMap (fun r => r.map Prod.fst))
    ∧ (dfFromRowsFn []).columnNames = []
    ∧ (∀ r rest, produced = r :: rest →
        (dfFromRowsFn produced).columnNames = r.map Prod.fst)
    ∧ (dfFromObjectRows exObjRows).columnNames = ["a", "b"]
    ∧ (dfFromObjectRows exObjRows).rows
        = [[JSVal.num 1, JSVal.undef], [JSVal.num 2, JSVal.num 3]]
    ∧ (dfFromRowsFn exObjRows).columnNames = ["a"]
    ∧ (dfFromRowsFn exObjRows).rows = [[JSVal.num 1], [JSVal.num 2]] := by
  refine ⟨?_, ?_, ?_, rfl, ?_, rfl, rfl, rfl, rfl⟩
  · exact distinctFirstGo_nodup _ []
  · intro n
    rw [dfFromObjectRows]
    simp only [distinctFirst]
    rw [distinctFirstGo_mem]
    simp [List.mem_flatMap]
  · exact distinctFirstGo_sublist _ []
  · intro r rest h
    subst h
    rfl

/-- Witness for column_name_inference at the concrete contrasting rows. -/
theorem column_name_inference_witness :
    (dfFromRowsFn exObjRows).columnNames = [("a", JSVal.num 1)].map Prod.fst
    ∧ (dfFromObjectRows exObjRows).columnNames.Nodup :=
  ⟨(column_name_inference exObjRows exObjRows).2.2.2.2.1
      [("a", JSVal.num 1)] [[("a", JSVal.num 2), ("b", JSVal.num 3)]] rfl,
   (column_name_inference exObjRows exObjRows).1⟩

/-! Operator immutability (C7). Every operator of the family constructs a
new Series or DataFrame; the underlying JavaScript only writes to an
existing object in two write-once cache spots: the lazily evaluated
column-name field (getColumnNames overwrites the thunk with its result),
and the one-shot sort cache inside a sorted object. The thenBy functions
extend the batch with Array.concat, which allocates a fresh array. The
model below makes the column-name cache state explicit and uses the
SortedDF batch model for the persistent-builder part. -/

/-- Lazy-or-baked column-name field of a DataFrame: the source stores
either a realized array or a thunk; the thunk is modelled by the value it
deterministically produces. -/
inductive ColNamesField where
  | baked (names : List String)
  | lazyThunk (names : List String)
deriving DecidableEq, Repr

/-- DataFrame with the mutable column-name cache made explicit. -/
structure DFC where
  cnf : ColNamesField
  rows : List (List JSVal)
  index : List JSVal
deriving DecidableEq, Repr

/-- DataFrame.prototype.getColumnNames: returns the names together with
the data frame state after the read; the thunk, once evaluated, is
written back over the field. -/
def dfcGetColumnNames (df : DFC) : List String × DFC :=
  match df.cnf with
  | .baked ns => (ns, df)
  | .lazyThunk ns => (ns, { df with cnf := .baked ns })

/-- The observable column names of a data frame. -/
def dfcNames (df : DFC) : List String := (dfcGetColumnNames df).1

/-- DataFrame.prototype.skip as a state transformer: reads
self.getColumnNames() (possibly filling the cache on the source) and
returns the NEW derived frame together with the source state after the
call. -/
def dfcSkip (df : DFC) (numRows : Nat) : DFC × DFC :=
  let r := dfcGetColumnNames df
  (⟨.baked r.1, df.rows.drop numRows, df.index.drop numRows⟩, r.2)

/-- The concrete three-row frame whose one-key and two-key sorted orders
differ: rows [[1, b], [1, a], [0, c]] with index [0, 1, 2]. -/
def exDF3 : DF :=
  ⟨["n", "s"],
   [[JSVal.num 1, JSVal.str "b"], [JSVal.num 1, JSVal.str "a"],
    [JSVal.num 0, JSVal.str "c"]],
   [JSVal.num 0, JSVal.num 1, JSVal.num 2]⟩

/-- The sorted object produced by orderBy of column n on exDF3. -/
def so1c : SortedDF := ⟨exDF3, [⟨fun row => jsField row "n", "orderBy"⟩]⟩

/-- C7: transformation operators leave the source observably unchanged
and return new objects. Filling the write-once column-name cache changes
no observable (names, rows, index); skip leaves the source observables
intact while the derived frame drops the requested rows from values and
index alike; thenBy on a sorted frame yields a new sorted object with a
freshly concatenated batch and the same untouched source; and on the
concrete three-row frame, the original sorted object still realizes the
one-key ordering once the two-key extension exists, the two realizations
being different. -/
theorem operators_do_not_mutate (df : DFC) (numRows : Nat) (so : SortedDF)
    (desc : Bool) (f : List (String × JSVal) → JSVal) :
    (dfcNames (dfcGetColumnNames df).2 = dfcNames df
      ∧ ((dfcGetColumnNames df).2).rows = df.rows
      ∧ ((dfcGetColumnNames df).2).index = df.index)
    ∧ (dfcNames (dfcSkip df numRows).2 = dfcNames df
      ∧ ((dfcSkip df numRows).2).rows = df.rows
      ∧ ((dfcSkip df numRows).2).index = df.index)
    ∧ ((dfcSkip df numRows).1).rows = df.rows.drop numRows
    ∧ ((dfcSkip df numRows).1).index = df.index.drop numRows
    ∧ ((dfThenByCall so desc (ColSpec.selFn f)).map SortedDF.batch
        = .ok (so.batch ++ [⟨f, if desc then "thenByDescending" else "thenBy"⟩])
      ∧ (dfThenByCall so desc (ColSpec.selFn f)).map SortedDF.src = .ok so.src)
    ∧ sortedRows so1c
        = [[JSVal.num 0, JSVal.str "c"], [JSVal.num 1, JSVal.str "b"],
           [JSVal.num 1, JSVal.str "a"]]
    ∧ (dfThenByCall so1c false (ColSpec.byName "s")).map sortedRows
        = .ok [[JSVal.num 0, JSVal.str "c"], [JSVal.num 1, JSVal.str "a"],
               [JSVal.num 1, JSVal.str "b"]]
    ∧ so1c.batch.length = 1 := by
  refine ⟨⟨?_, ?_, ?_⟩, ⟨?_, ?_, ?_⟩, rfl, rfl, ⟨rfl, rfl⟩, rfl, rfl, rfl⟩
  · cases h : df.cnf <;> simp [dfcNames, dfcGetColumnNames, h]
  · cases h : df.cnf <;> simp [dfcGetColumnNames, h]
  · cases h : df.cnf <;> simp [dfcGetColumnNames, h]
  · cases h : df.cnf <;> simp [dfcSkip, dfcNames, dfcGetColumnNames, h]
  · cases h : df.cnf <;> simp [dfcSkip, dfcGetColumnNames, h]
  · cases h : df.cnf <;> simp [dfcSkip, dfcGetColumnNames, h]

end DataForge
